import Mathlib

/-
Verification development for the reading-evidence capture and rubric-scoring
core of `src/src/lib/proofofreading.svelte`.

The shallow embedding below translates the script portion of the component:
  - text primitives `tokenize`, `jaccard`, `fluencyProxy` (source lines 171-186),
  - the two grading variants `gradeRow` (lines 189-216) and `gradeRowLLM`
    (lines 48-87),
  - the selection-to-offset capture handler `onMouseUpCapture` (lines 94-118),
  - the reactive skim-flag reconciliation blocks (lines 143-154) and the
    seed/clear helpers for real flags (lines 157-162).

Modelling conventions:
  - JS `number` is modelled by `ℚ` (the constants involved are exact decimal
    literals) and `Math.round(x)` by `⌊x + 1/2⌋`, which agrees with JS
    rounding on the non-negative values that occur here.
  - A DOM text selection is modelled by a record `Sel` holding the selected
    string, the start/end node references as indices into the document-order
    list of text nodes, the local offsets, and a boolean recording the
    `container.contains(range.commonAncestorContainer)` test.
  - JS truthiness of the optional `flags : string` and `flagsDemo : boolean`
    fields is modelled by `flagTruthy` / `demoTruthy` (undefined and the empty
    string and `false` are falsy).
  - `String.split(/\s+/).filter(Boolean)` is modelled by `splitRuns`, a
    structural-recursion splitter producing the maximal runs of
    non-whitespace characters, which is the same function.
-/

namespace ProofOfReading

/-! ## Data model (source lines 4-24) -/

inductive Quality where
  | Strong
  | Medium
  | Weak
deriving DecidableEq

structure Rubric where
  completeness : ℚ
  evidence : ℚ
  relevance : ℚ
  fluency : ℚ
  levelAdjust : ℚ
  total : ℚ
deriving DecidableEq

structure StudentRow where
  name : String
  time : String
  tasks : String
  quality : Quality
  flags : Option String
  flagsDemo : Option Bool
  score : Option ℤ
  rubric : Option Rubric
  feedback : Option String
deriving DecidableEq

inductive TaskType where
  | highlight
  | short
  | vocab
deriving DecidableEq

structure Task where
  id : String
  type : TaskType
  prompt : String
  done : Option Bool
  answer : Option String
deriving DecidableEq

/-- EvidenceSpan record (source line 6).  The TS field `end` is a reserved
word in Lean and is rendered as `endPos`. -/
structure Evidence where
  id : String
  text : String
  start : Nat
  endPos : Nat
deriving DecidableEq

/-- The reading passage (source lines 29-31). -/
def reading : String := "The colony faced dwindling grain reserves after a failed harvest. Councils debated rationing policy. Merchants argued for price ceilings while officials proposed equitable distribution based on household size. Diaries from the period reveal mixed reactions among townspeople, noting both relief and resentment. Implementation of ration books began the following month. Bakers received flour allocations tied to reported demand. Rumors of favoritism spread, particularly concerning officials and their associates. Audits later contradicted some claims.\n\nHistorians point out that rationing systems are often perceived as unfair in the short term but can stabilize markets. The language of official notices emphasized civic duty and mutual sacrifice, while diaries reveal anxiety over scarcity and social standing."

/-! ## Lexical similarity and fluency primitives (source lines 171-186) -/

/-- One step of `replace(/[^a-z0-9\s]/g, ' ')` (source line 173): any
character outside lowercase letters, digits and whitespace becomes a space. -/
def cleanChar (c : Char) : Char :=
  if (('a' ≤ c ∧ c ≤ 'z') ∨ ('0' ≤ c ∧ c ≤ '9') ∨ c.isWhitespace) then c else ' '

/-- Model of `split(/\s+/)` followed by `filter(Boolean)` (source line 173): the
maximal runs of non-separator characters, left to right.  `acc` holds the
current run reversed. -/
def splitRuns (p : Char → Bool) : List Char → List Char → List (List Char)
  | [], acc => if acc = [] then [] else [acc.reverse]
  | c :: cs, acc =>
    if p c then (if acc = [] then splitRuns p cs [] else acc.reverse :: splitRuns p cs [])
    else splitRuns p cs (c :: acc)

/-- Embedding of `tokenize` (source lines 172-174): lowercase, replace non-alphanumerics
by spaces, split on whitespace runs, drop empties. -/
def tokenize (s : String) : List String :=
  (splitRuns Char.isWhitespace ((s.data.map Char.toLower).map cleanChar) []).map
    (fun l => String.mk l)

/-- Embedding of `jaccard` (source lines 175-181).  A JS `Set` built from a list is
modelled by `List.dedup` (only its size and membership are used); the
`|| 1` union floor becomes the `if union = 0` branch. -/
def jaccard (a b : String) : ℚ :=
  let A := (tokenize a).dedup
  let B := (tokenize b).dedup
  let inter := (A.filter (fun x => decide (x ∈ B))).length
  let union := ((A ++ B).dedup).length
  (inter : ℚ) / (if union = 0 then 1 else (union : ℚ))

/-- Number of `.`, `!`, `?` characters, the `match(/[.!?]/g)` count of
source line 184. -/
def sentenceCount (ans : String) : Nat :=
  (ans.data.filter (fun c => (c == '.') || (c == '!') || (c == '?'))).length

/-- Embedding of `fluencyProxy` (source lines 182-186); `|| 1` on the sentence count
becomes the `if = 0` branch. -/
def fluencyProxy (ans : String) : ℚ :=
  let len : ℚ := (ans.length : ℚ)
  let sentences : ℚ := if sentenceCount ans = 0 then 1 else (sentenceCount ans : ℚ)
  min 1 ((len / 200) * (sentences / 2))

/-! ## Scoring helpers shared by both variants

The source duplicates these expressions verbatim inside `gradeRow`
(lines 191-204) and `gradeRowLLM` (lines 49-64); they are extracted here as
named definitions used by both embeddings. -/

/-- Tier baseline `r.quality === 'Strong' ? 0.8 : ... ? 0.6 : 0.4`
(source lines 49 and 191). -/
def baselineOf : Quality → ℚ
  | Quality.Strong => 0.8
  | Quality.Medium => 0.6
  | Quality.Weak => 0.4

/-- The fixed sample answer chosen by quality tier (source lines 52-57 and
192-197). -/
def sampleAnswerOf : Quality → String
  | Quality.Strong => "Rationing was necessary due to failed harvest and scarce supplies."
  | Quality.Medium => "They made ration books to be fair."
  | Quality.Weak => "It was about food."

/-- Evidence sub-score `r.quality !== 'Weak' ? 0.7 : 0.3` (source lines 62 and 201). -/
def evidenceOf (q : Quality) : ℚ :=
  if q ≠ Quality.Weak then 0.7 else 0.3

/-- Model-assisted level adjustment
`r.quality === 'Weak' ? 0.05 : r.quality === 'Strong' ? -0.02 : 0.0`
(source line 64). -/
def llmLevelAdjust : Quality → ℚ
  | Quality.Weak => 0.05
  | Quality.Strong => -0.02
  | Quality.Medium => 0

/-- JS truthiness of the optional `flags` string field. -/
def flagTruthy : Option String → Bool
  | none => false
  | some s => !(s == "")

/-- JS truthiness of the optional `flagsDemo` boolean field. -/
def demoTruthy : Option Bool → Bool
  | some true => true
  | _ => false

/-- Flag penalty `const flagPenalty = r.flags ? 0.1 : 0` (source line 203). -/
def flagPenaltyOf (r : StudentRow) : ℚ :=
  if flagTruthy r.flags then 0.1 else 0

/-- Level adjustment `const levelAdjust = 0` of the rule-based variant (source line 204). -/
def ruleLevelAdjust : ℚ := 0

/-- Rounding `Math.round`, applied in the source to `total * 100` with
`total ∈ [0, 1]`; on non-negative arguments JS rounding is `⌊x + 1/2⌋`. -/
def jsRound (x : ℚ) : ℤ := ⌊x + 1 / 2⌋

/-- Rule-based `gradeRow` (source lines 189-216).  It fills `rubric` and
`score` and leaves every other field, in particular `feedback`, unchanged. -/
def gradeRow (r : StudentRow) : StudentRow :=
  let baseline := baselineOf r.quality
  let sampleAnswer := sampleAnswerOf r.quality
  let relevance := jaccard reading sampleAnswer
  let fluency := fluencyProxy sampleAnswer
  let evidence := evidenceOf r.quality
  let completeness := baseline
  let flagPenalty := flagPenaltyOf r
  let levelAdjust := ruleLevelAdjust
  let total := max 0 (min 1
    (0.25 * completeness + 0.30 * relevance + 0.25 * evidence + 0.20 * fluency
      - flagPenalty + levelAdjust))
  { r with
    rubric := some
      { completeness := completeness
        evidence := evidence
        relevance := relevance
        fluency := fluency
        levelAdjust := levelAdjust
        total := total }
    score := some (jsRound (total * 100)) }

/-- Model-assisted `gradeRowLLM` (source lines 48-87).  Same weighting and
clamping, level adjustment from the tier instead of the flag penalty, and a
tiered feedback string. -/
def gradeRowLLM (r : StudentRow) : StudentRow :=
  let baseline := baselineOf r.quality
  let sampleAnswer := sampleAnswerOf r.quality
  let relevance := jaccard reading sampleAnswer
  let fluency := fluencyProxy sampleAnswer
  let evidence := evidenceOf r.quality
  let completeness := baseline
  let levelAdjust := llmLevelAdjust r.quality
  let total := max 0 (min 1
    (0.25 * completeness + 0.30 * relevance + 0.25 * evidence + 0.20 * fluency
      + levelAdjust))
  { r with
    rubric := some
      { completeness := completeness
        evidence := evidence
        relevance := relevance
        fluency := fluency
        levelAdjust := levelAdjust
        total := total }
    score := some (jsRound (total * 100))
    feedback := some
      (if total > 0.85 then
        "Strong, on-topic, fluent. Consider citing a specific policy detail from the passage for full credit."
      else if total > 0.65 then
        "Mostly correct. Clarify the rationale for rationing (failed harvest, scarcity) and reference a quoted sentence."
      else
        "Off-target or incomplete. Re-read the first paragraph and identify why rationing began; include a short quote as evidence.") }

/-! ## Offset mapper and evidence capture (source lines 94-118) -/

/-- A discrete selection event.  `contained` records the
`container.contains(range.commonAncestorContainer)` test (line 99); the node
references are indices into the document-order list of text nodes walked by
the `TreeWalker` (line 104). -/
structure Sel where
  contained : Bool
  text : String
  startRef : Nat
  startOff : Nat
  endRef : Nat
  endOff : Nat
deriving DecidableEq

/-- The `while (walker.nextNode())` loop of source lines 105-111: running
offset `acc`, start/end globals initialised to `-1`, early break when the
end reference is reached. -/
def walkLoop (sel : Sel) : List String → Nat → Nat → Int → Int × Int
  | [], _, _, sg => (sg, -1)
  | n :: rest, i, acc, sg =>
    let sg2 : Int := if i = sel.startRef then ((acc + sel.startOff : Nat) : Int) else sg
    if i = sel.endRef then (sg2, ((acc + sel.endOff : Nat) : Int))
    else walkLoop sel rest (i + 1) (acc + n.length) sg2

/-- JS `text.trim()` on the underlying character list. -/
def trimChars (l : List Char) : List Char :=
  (((l.dropWhile Char.isWhitespace).reverse).dropWhile Char.isWhitespace).reverse

/-- Model of `tasks.find(t => t.type === 'highlight')` followed by `ht.done = true`
(source lines 114-115): mark the first highlight task done. -/
def markFirstHighlight : List Task → List Task
  | [] => []
  | t :: ts =>
    if t.type = TaskType.highlight then { t with done := some true } :: ts
    else t :: markFirstHighlight ts

structure CaptureState where
  evidence : List Evidence
  tasks : List Task
deriving DecidableEq

/-- Embedding of `onMouseUpCapture` (source lines 94-118) over a document rendered as the
list `nodes` of text nodes in document order.  The initial
`!selection || rangeCount === 0` bail-out is the absence of a `Sel` event. -/
def onMouseUpCapture (nodes : List String) (sel : Sel) (st : CaptureState) :
    CaptureState :=
  if sel.contained = false then st
  else if sel.text = "" ∨ (trimChars sel.text.data).length < 3 then st
  else
    let w := walkLoop sel nodes 0 0 (-1)
    if 0 ≤ w.1 ∧ w.2 > w.1 then
      { evidence := st.evidence ++
          [{ id := "e" ++ toString (st.evidence.length + 1), text := sel.text,
             start := w.1.toNat, endPos := w.2.toNat }],
        tasks := markFirstHighlight st.tasks }
    else st

/-- Sum of the lengths of the first `i` text nodes: the value of `acc` when
the walker reaches node `i`. -/
def preLen (nodes : List String) (i : Nat) : Nat :=
  ((nodes.take i).map String.length).sum

/-- Total length of the rendered document (the concatenation of the text
nodes). -/
def totalLen (nodes : List String) : Nat :=
  (nodes.map String.length).sum

/-- Canonical global offset of a (node reference, local offset) pair. -/
def globalOf (nodes : List String) (ref off : Nat) : Nat :=
  preLen nodes ref + off

/-- The document slice [a, b), 0-indexed and end-exclusive, of the
concatenated text nodes. -/
def docSlice (nodes : List String) (a b : Nat) : String :=
  String.mk (((nodes.map String.data).flatten.drop a).take (b - a))

/-- The EvidenceSpan invariant of the data model: positive extent inside the
document, text equal to the document slice. -/
def spanInv (nodes : List String) (e : Evidence) : Prop :=
  0 ≤ e.start ∧ e.start < e.endPos ∧ e.endPos ≤ totalLen nodes ∧
    e.text = docSlice nodes e.start e.endPos

/-! ## Skim-flag controller (source lines 128-162) -/

def benName : String := "Ben R."

def skimLabel : String := "Possible skim"

def realLabel : String := "Skim (real)"

/-- The row update applied by the auto-seed block (source line 145). -/
def benMark (r : StudentRow) : StudentRow :=
  if r.name = benName then { r with flags := some skimLabel, flagsDemo := some true }
  else r

/-- The row update applied by the auto-clear block (source line 152). -/
def demoClear (r : StudentRow) : StudentRow :=
  if demoTruthy r.flagsDemo then { r with flags := none, flagsDemo := none } else r

/-- Reactive auto-seed (source lines 143-147): when premium and skim are on
and no row carries a truthy flag, attach the demo flag to the rows named
`Ben R.`. -/
def seedDemo (rows : List StudentRow) : List StudentRow :=
  if rows.any (fun r => flagTruthy r.flags) then rows else rows.map benMark

/-- Reactive auto-clear (source lines 150-154): when premium or skim is off
and some row has a truthy `flagsDemo`, clear exactly the demo-flagged rows. -/
def clearDemo (rows : List StudentRow) : List StudentRow :=
  if rows.any (fun r => demoTruthy r.flagsDemo) then rows.map demoClear else rows

/-- One reconciliation pass of the two reactive blocks for a given switch
state.  The two guards `premium && skim` and `!premium || !skim` are
mutually exclusive, so the blocks compose into this single step. -/
def reconcile (premium skimEnabled : Bool) (rows : List StudentRow) :
    List StudentRow :=
  if premium && skimEnabled then seedDemo rows else clearDemo rows

/-- A fold of reconciliation passes over a sequence of switch states. -/
def reconcileAll (l : List (Bool × Bool)) (rows : List StudentRow) :
    List StudentRow :=
  l.foldl (fun rs pm => reconcile pm.1 pm.2 rs) rows

/-- Embedding of `seedRealFlag` (source lines 157-159); the `label` parameter defaults to
"Skim (real)" in the source. -/
def seedRealFlag (nm label : String) (rows : List StudentRow) : List StudentRow :=
  rows.map (fun r =>
    if r.name = nm then { r with flags := some label, flagsDemo := some false } else r)

/-- Embedding of `clearRealFlags` (source lines 160-162). -/
def clearRealFlags (rows : List StudentRow) : List StudentRow :=
  rows.map (fun r => if demoTruthy r.flagsDemo then r else { r with flags := none })

/-- A persisted (non-demo) flag: a truthy flag whose `flagsDemo` is not
truthy (real flags are seeded with `flagsDemo: false`). -/
def persistedFlag (r : StudentRow) : Prop :=
  flagTruthy r.flags = true ∧ demoTruthy r.flagsDemo = false

/-! ## The teacher data rows (source lines 128-132) -/

def aliceRow : StudentRow :=
  { name := "Alice W.", time := "15m", tasks := "7/7", quality := Quality.Strong,
    flags := none, flagsDemo := none, score := none, rubric := none, feedback := none }

def benRow : StudentRow :=
  { name := "Ben R.", time := "9m", tasks := "5/7", quality := Quality.Weak,
    flags := none, flagsDemo := none, score := none, rubric := none, feedback := none }

def chrisRow : StudentRow :=
  { name := "Chris T.", time := "14m", tasks := "6/7", quality := Quality.Medium,
    flags := none, flagsDemo := none, score := none, rubric := none, feedback := none }

def rowsApp : List StudentRow := [aliceRow, benRow, chrisRow]

/-! ## Helper lemmas -/

lemma clamp_nonneg (x : ℚ) : 0 ≤ max 0 (min 1 x) := le_max_left 0 _

lemma clamp_le_one (x : ℚ) : max 0 (min 1 x) ≤ 1 := max_le (by norm_num) (min_le_left 1 x)

lemma jsRound_nonneg_le (q : ℚ) (h0 : 0 ≤ q) (h1 : q ≤ 1) :
    0 ≤ jsRound (q * 100) ∧ jsRound (q * 100) ≤ 100 := by
  unfold jsRound
  constructor
  · exact Int.le_floor.mpr (by push_cast; linarith)
  · have h2 : ⌊q * 100 + 1 / 2⌋ < (101 : ℤ) := Int.floor_lt.mpr (by push_cast; linarith)
    omega

/-! ## Claim C8: jaccard self-similarity -/

def bangStr : String := "!"

/-- Claim C8, counterexample: the non-empty string "!" tokenizes to the
empty token list, so `jaccard "!" "!"` is 0, not 1, refuting the claim for
every non-empty string. -/
theorem c8_cex : bangStr ≠ "" ∧ jaccard bangStr bangStr = 0 ∧ jaccard bangStr bangStr ≠ 1 := by
  have htok : tokenize bangStr = [] := by decide
  refine ⟨by decide, ?_, ?_⟩ <;> simp [jaccard, htok]

/-- Claim C8 (amended): for every string whose token list is non-empty,
`jaccard a a = 1`.  The source computes intersection and union of the token
set with itself, both of size the number of distinct tokens, and divides. -/
theorem c8_jaccard_self (a : String) (h : tokenize a ≠ []) : jaccard a a = 1 := by
  simp only [jaccard]
  set A := (tokenize a).dedup with hA
  have hnodup : A.Nodup := List.nodup_dedup _
  have hfilter : A.filter (fun x => decide (x ∈ A)) = A :=
    List.filter_eq_self.mpr (fun x hx => by simpa using hx)
  have hunion : ((A ++ A).dedup).length = A.length := by
    have h1 : ((A ++ A).dedup).length = (A ++ A).toFinset.card :=
      (List.card_toFinset _).symm
    have h2 : (A ++ A).toFinset = A.toFinset := by
      rw [List.toFinset_append, Finset.union_self]
    have h3 : A.toFinset.card = A.dedup.length := List.card_toFinset _
    rw [h1, h2, h3, hnodup.dedup]
  have hne : A.length ≠ 0 := by
    intro h0
    exact h ((List.dedup_eq_nil _).mp (List.length_eq_zero.mp h0))
  rw [hfilter, hunion, if_neg hne]
  exact div_self (by exact_mod_cast hne)

def rationWord : String := "ration"

theorem c8_jaccard_self_witness :
    tokenize rationWord ≠ [] ∧ jaccard rationWord rationWord = 1 :=
  ⟨by decide, c8_jaccard_self rationWord (by decide)⟩

/-! ## Claim C9: fluency monotonicity -/

def dotsStr : String := "...."

def plainStr : String := "aaaaa"

/-- Claim C9, counterexample: `fluencyProxy` is not non-decreasing in text
length alone: "...." (length 4, four sentence marks) scores strictly higher
than the longer "aaaaa" (length 5, no marks). -/
theorem c9_cex :
    dotsStr.length ≤ plainStr.length ∧ ¬ fluencyProxy dotsStr ≤ fluencyProxy plainStr := by
  have h1 : sentenceCount dotsStr = 4 := by decide
  have h2 : sentenceCount plainStr = 0 := by decide
  have h3 : dotsStr.length = 4 := by decide
  have h4 : plainStr.length = 5 := by decide
  constructor
  · omega
  · simp only [fluencyProxy, h1, h2, h3, h4]
    norm_num [min_def]

/-- Claim C9 (amended): among texts with the same number of sentence marks,
`fluencyProxy` is non-decreasing in text length (saturating at 1): the
length factor grows, the sentence factor is fixed, and `min 1` caps the
product. -/
theorem c9_fluency_mono (s t : String) (hc : sentenceCount s = sentenceCount t)
    (hl : s.length ≤ t.length) : fluencyProxy s ≤ fluencyProxy t := by
  simp only [fluencyProxy, hc]
  apply min_le_min (le_refl 1)
  have hK : (0 : ℚ) ≤ (if sentenceCount t = 0 then 1 else (sentenceCount t : ℚ)) / 2 := by
    split <;> positivity
  have hlen : (s.length : ℚ) / 200 ≤ (t.length : ℚ) / 200 := by
    have : (s.length : ℚ) ≤ (t.length : ℚ) := by exact_mod_cast hl
    linarith
  exact mul_le_mul_of_nonneg_right hlen hK

def shortSent : String := "a."

def longSent : String := "aaa."

theorem c9_fluency_mono_witness :
    sentenceCount shortSent = sentenceCount longSent ∧ shortSent.length ≤ longSent.length ∧
      fluencyProxy shortSent ≤ fluencyProxy longSent :=
  ⟨by decide, by decide, c9_fluency_mono shortSent longSent (by decide) (by decide)⟩

/-! ## Claim C1: composite formula and score range -/

lemma score_in_range (x : ℚ) :
    0 ≤ jsRound (max 0 (min 1 x) * 100) ∧ jsRound (max 0 (min 1 x) * 100) ≤ 100 :=
  jsRound_nonneg_le _ (clamp_nonneg x) (clamp_le_one x)

/-- Claim C1: for every learner record, both variants compute the composite
`total = clamp(0.25 completeness + 0.30 relevance + 0.25 evidenceScore +
0.20 fluency + levelAdjust [- 0.1 if flagged, rule-based only], 0, 1)`, the
integer score is `round(total * 100)`, and it lies in `[0, 100]`. -/
theorem c1_composite_score (r : StudentRow) :
    (∃ n : ℤ,
      (gradeRow r).score = some n ∧
      (gradeRow r).rubric.map Rubric.total = some (max 0 (min 1
        (0.25 * baselineOf r.quality + 0.30 * jaccard reading (sampleAnswerOf r.quality) +
          0.25 * evidenceOf r.quality + 0.20 * fluencyProxy (sampleAnswerOf r.quality) +
          ruleLevelAdjust - flagPenaltyOf r))) ∧
      n = jsRound (max 0 (min 1
        (0.25 * baselineOf r.quality + 0.30 * jaccard reading (sampleAnswerOf r.quality) +
          0.25 * evidenceOf r.quality + 0.20 * fluencyProxy (sampleAnswerOf r.quality) +
          ruleLevelAdjust - flagPenaltyOf r)) * 100) ∧
      0 ≤ n ∧ n ≤ 100) ∧
    (∃ n : ℤ,
      (gradeRowLLM r).score = some n ∧
      (gradeRowLLM r).rubric.map Rubric.total = some (max 0 (min 1
        (0.25 * baselineOf r.quality + 0.30 * jaccard reading (sampleAnswerOf r.quality) +
          0.25 * evidenceOf r.quality + 0.20 * fluencyProxy (sampleAnswerOf r.quality) +
          llmLevelAdjust r.quality))) ∧
      n = jsRound (max 0 (min 1
        (0.25 * baselineOf r.quality + 0.30 * jaccard reading (sampleAnswerOf r.quality) +
          0.25 * evidenceOf r.quality + 0.20 * fluencyProxy (sampleAnswerOf r.quality) +
          llmLevelAdjust r.quality)) * 100) ∧
      0 ≤ n ∧ n ≤ 100) := by
  have hAB : (0.25 * baselineOf r.quality + 0.30 * jaccard reading (sampleAnswerOf r.quality) +
      0.25 * evidenceOf r.quality + 0.20 * fluencyProxy (sampleAnswerOf r.quality) -
      flagPenaltyOf r + ruleLevelAdjust) =
      (0.25 * baselineOf r.quality + 0.30 * jaccard reading (sampleAnswerOf r.quality) +
      0.25 * evidenceOf r.quality + 0.20 * fluencyProxy (sampleAnswerOf r.quality) +
      ruleLevelAdjust - flagPenaltyOf r) := by ring
  constructor
  · refine ⟨_, ?_, ?_, rfl, (score_in_range _).1, (score_in_range _).2⟩
    · simp only [gradeRow, hAB]
    · simp only [gradeRow, hAB, Option.map_some']
  · refine ⟨_, ?_, ?_, rfl, (score_in_range _).1, (score_in_range _).2⟩
    · simp only [gradeRowLLM]
    · simp only [gradeRowLLM, Option.map_some']

/-! ## Claim C2: relation between the two scoring variants -/

/-- Claim C2, counterexample: for the Medium unflagged learner the derived
evidence scores and the (penalty-folded) level adjustments of the two
variants coincide, yet the rule-based variant produces no feedback string
while the model-assisted one does, so the outputs are not the same. -/
theorem c2_cex :
    ruleLevelAdjust - flagPenaltyOf chrisRow = llmLevelAdjust chrisRow.quality ∧
      (gradeRow chrisRow).feedback = none ∧ (gradeRowLLM chrisRow).feedback ≠ none := by
  refine ⟨?_, rfl, ?_⟩
  · simp [ruleLevelAdjust, flagPenaltyOf, llmLevelAdjust, chrisRow, flagTruthy]
  · simp [gradeRowLLM]

/-- Claim C2 (amended): on every learner record where the effective level
adjustments coincide (the flag penalty folded into the rule-based one), the
two variants produce the same rubric breakdown and the same score; the
tiered feedback string is produced only by the model-assisted variant, the
rule-based one leaves the feedback field untouched.  (The derived
evidence scores coincide on every record: both variants use `evidenceOf`.) -/
theorem c2_shared_scoring (r : StudentRow)
    (h : ruleLevelAdjust - flagPenaltyOf r = llmLevelAdjust r.quality) :
    (gradeRow r).rubric = (gradeRowLLM r).rubric ∧
      (gradeRow r).score = (gradeRowLLM r).score ∧
      (gradeRow r).feedback = r.feedback := by
  by_cases hf : flagTruthy r.flags
  · exfalso
    have h2 : ruleLevelAdjust - flagPenaltyOf r = -(0.1 : ℚ) := by
      simp [ruleLevelAdjust, flagPenaltyOf, hf]
    rw [h2] at h
    cases hq : r.quality <;> rw [hq] at h <;> norm_num [llmLevelAdjust] at h
  · have hp : flagPenaltyOf r = 0 := by simp [flagPenaltyOf, hf]
    have hla : llmLevelAdjust r.quality = 0 := by rw [← h, hp]; simp [ruleLevelAdjust]
    refine ⟨?_, ?_, rfl⟩
    · simp [gradeRow, gradeRowLLM, hla, hp, ruleLevelAdjust]
    · simp [gradeRow, gradeRowLLM, hla, hp, ruleLevelAdjust]

theorem c2_shared_scoring_witness :
    ruleLevelAdjust - flagPenaltyOf chrisRow = llmLevelAdjust chrisRow.quality ∧
      ((gradeRow chrisRow).rubric = (gradeRowLLM chrisRow).rubric ∧
        (gradeRow chrisRow).score = (gradeRowLLM chrisRow).score ∧
        (gradeRow chrisRow).feedback = chrisRow.feedback) := by
  have h : ruleLevelAdjust - flagPenaltyOf chrisRow = llmLevelAdjust chrisRow.quality := by
    simp [ruleLevelAdjust, flagPenaltyOf, llmLevelAdjust, chrisRow, flagTruthy]
  exact ⟨h, c2_shared_scoring chrisRow h⟩

/-! ## Claim C10: grading ignores everything but tier and flag presence -/

/-- Claim C10: the scored answer text is the fixed sample selected by the
quality tier, so two learners with the same tier (and, for the rule-based
variant, the same flag truthiness) receive identical rubric breakdowns,
scores and model-assisted feedback, whatever they highlighted, wrote, or how
long they dwelt; the rule-based variant assigns no feedback at all. -/
theorem c10_tier_determines (r1 r2 : StudentRow) (hq : r1.quality = r2.quality) :
    ((gradeRowLLM r1).rubric = (gradeRowLLM r2).rubric ∧
      (gradeRowLLM r1).score = (gradeRowLLM r2).score ∧
      (gradeRowLLM r1).feedback = (gradeRowLLM r2).feedback) ∧
    (flagTruthy r1.flags = flagTruthy r2.flags →
      (gradeRow r1).rubric = (gradeRow r2).rubric ∧
      (gradeRow r1).score = (gradeRow r2).score ∧
      (gradeRow r1).feedback = r1.feedback ∧ (gradeRow r2).feedback = r2.feedback) := by
  constructor
  · refine ⟨?_, ?_, ?_⟩ <;> simp [gradeRowLLM, hq]
  · intro hf
    refine ⟨?_, ?_, rfl, rfl⟩ <;> simp [gradeRow, hq, flagPenaltyOf, hf]

/-- A learner differing from Alice in name, dwell time, task completion and
stale feedback, but with the same quality tier and no flag. -/
def danaRow : StudentRow :=
  { name := "Dana Q.", time := "2m", tasks := "1/7", quality := Quality.Strong,
    flags := none, flagsDemo := none, score := none, rubric := none,
    feedback := some "stale feedback from an earlier pass" }

theorem c10_tier_determines_witness :
    aliceRow.quality = danaRow.quality ∧
      flagTruthy aliceRow.flags = flagTruthy danaRow.flags ∧
      (gradeRowLLM aliceRow).rubric = (gradeRowLLM danaRow).rubric ∧
      (gradeRowLLM aliceRow).score = (gradeRowLLM danaRow).score ∧
      (gradeRowLLM aliceRow).feedback = (gradeRowLLM danaRow).feedback ∧
      (gradeRow aliceRow).rubric = (gradeRow danaRow).rubric ∧
      (gradeRow aliceRow).score = (gradeRow danaRow).score := by
  have h := c10_tier_determines aliceRow danaRow rfl
  exact ⟨rfl, rfl, h.1.1, h.1.2.1, h.1.2.2, (h.2 rfl).1, (h.2 rfl).2.1⟩

/-! ## Walker characterisation -/

def emptyStr : String := ""

/-- If the end reference lies beyond the remaining nodes, the walker never
breaks and the end global stays `-1`. -/
lemma walkLoop_no_end (sel : Sel) :
    ∀ (l : List String) (i acc : Nat) (sg : Int),
      sel.endRef + 1 > i + l.length → (walkLoop sel l i acc sg).2 = -1 := by
  intro l
  induction l with
  | nil => intro i acc sg _; rfl
  | cons n rest ih =>
    intro i acc sg h
    simp only [List.length_cons] at h
    have hne : ¬ i = sel.endRef := by omega
    simp only [walkLoop, if_neg hne]
    exact ih (i + 1) (acc + n.length) _ (by omega)

/-- Full characterisation of the walker when the end reference is among the
remaining nodes: the end global is the running offset of the end node plus
the local offset, and the start global is set the same way exactly when the
start reference is visited before the break. -/
lemma walkLoop_spec (sel : Sel) :
    ∀ (l : List String) (i acc : Nat) (sg : Int),
      i ≤ sel.endRef → sel.endRef < i + l.length →
      walkLoop sel l i acc sg =
        ((if i ≤ sel.startRef ∧ sel.startRef ≤ sel.endRef
          then ((acc + ((l.take (sel.startRef - i)).map String.length).sum + sel.startOff : Nat) : Int)
          else sg),
         ((acc + ((l.take (sel.endRef - i)).map String.length).sum + sel.endOff : Nat) : Int)) := by
  intro l
  induction l with
  | nil =>
    intro i acc sg h1 h2
    simp only [List.length_nil] at h2
    omega
  | cons n rest ih =>
    intro i acc sg h1 h2
    simp only [List.length_cons] at h2
    by_cases he : i = sel.endRef
    · have h0 : sel.endRef - i = 0 := by omega
      have hL : walkLoop sel (n :: rest) i acc sg =
          ((if i = sel.startRef then ((acc + sel.startOff : Nat) : Int) else sg),
            ((acc + sel.endOff : Nat) : Int)) := by
        simp only [walkLoop, if_pos he]
      rw [hL, h0]
      simp only [List.take_zero, List.map_nil, List.sum_nil, Nat.add_zero]
      by_cases hs : i = sel.startRef
      · have hc : i ≤ sel.startRef ∧ sel.startRef ≤ sel.endRef := by omega
        have hs0 : sel.startRef - i = 0 := by omega
        rw [if_pos hs, if_pos hc, hs0]
        simp only [List.take_zero, List.map_nil, List.sum_nil, Nat.add_zero]
      · have hc : ¬ (i ≤ sel.startRef ∧ sel.startRef ≤ sel.endRef) := by omega
        rw [if_neg hs, if_neg hc]
    · have hlt : i < sel.endRef := by omega
      have hstep : walkLoop sel (n :: rest) i acc sg =
          walkLoop sel rest (i + 1) (acc + n.length)
            (if i = sel.startRef then ((acc + sel.startOff : Nat) : Int) else sg) := by
        simp only [walkLoop, if_neg he]
      rw [hstep, ih (i + 1) (acc + n.length) _ (by omega) (by omega)]
      have hk : sel.endRef - i = (sel.endRef - (i + 1)) + 1 := by omega
      simp only [Prod.mk.injEq]
      constructor
      · by_cases hA : i + 1 ≤ sel.startRef ∧ sel.startRef ≤ sel.endRef
        · have hB : i ≤ sel.startRef ∧ sel.startRef ≤ sel.endRef := by omega
          rw [if_pos hA, if_pos hB]
          have hks : sel.startRef - i = (sel.startRef - (i + 1)) + 1 := by omega
          rw [hks, List.take_succ_cons, List.map_cons, List.sum_cons]
          exact congrArg _ (by omega)
        · rw [if_neg hA]
          by_cases hB : i ≤ sel.startRef ∧ sel.startRef ≤ sel.endRef
          · have hs : i = sel.startRef := by omega
            rw [if_pos hs, if_pos hB]
            have hs0 : sel.startRef - i = 0 := by omega
            rw [hs0]
            simp only [List.take_zero, List.map_nil, List.sum_nil, Nat.add_zero]
          · have hs : ¬ i = sel.startRef := by omega
            rw [if_neg hs, if_neg hB]
      · rw [hk, List.take_succ_cons, List.map_cons, List.sum_cons]
        exact congrArg _ (by omega)

/-- The walker from the top of the document, when both references resolve in
order: it returns exactly the canonical global offsets. -/
lemma walkLoop_main (sel : Sel) (nodes : List String)
    (h1 : sel.startRef ≤ sel.endRef) (h2 : sel.endRef < nodes.length) :
    walkLoop sel nodes 0 0 (-1) =
      (((globalOf nodes sel.startRef sel.startOff : Nat) : Int),
       ((globalOf nodes sel.endRef sel.endOff : Nat) : Int)) := by
  rw [walkLoop_spec sel nodes 0 0 (-1) (Nat.zero_le _) (by omega)]
  rw [if_pos ⟨Nat.zero_le _, h1⟩]
  simp [globalOf, preLen]

/-- When the end node precedes the start node the walker breaks before ever
matching the start reference, leaving the start global at `-1`. -/
lemma walkLoop_sg_neg (sel : Sel) (nodes : List String)
    (h1 : sel.endRef < sel.startRef) (h2 : sel.endRef < nodes.length) :
    (walkLoop sel nodes 0 0 (-1)).1 = -1 := by
  rw [walkLoop_spec sel nodes 0 0 (-1) (Nat.zero_le _) (by omega)]
  rw [if_neg (by omega)]

/-- Marking the first highlight task done twice is the same as once. -/
lemma markFirstHighlight_idem : ∀ ts : List Task,
    markFirstHighlight (markFirstHighlight ts) = markFirstHighlight ts := by
  intro ts
  induction ts with
  | nil => rfl
  | cons t ts ih =>
    by_cases h : t.type = TaskType.highlight
    · simp [markFirstHighlight, h]
    · simp [markFirstHighlight, h, ih]

/-- Running offset plus the matched node's length never exceeds the document
length. -/
lemma preLen_getD_le (nodes : List String) (i : Nat) :
    preLen nodes i + (nodes.getD i emptyStr).length ≤ totalLen nodes := by
  induction nodes generalizing i with
  | nil => simp [preLen, totalLen, List.getD_nil, emptyStr]
  | cons n ns ih =>
    cases i with
    | zero =>
      simp only [preLen, totalLen, List.take_zero, List.map_nil, List.sum_nil,
        List.getD_cons_zero, List.map_cons, List.sum_cons, Nat.zero_add]
      omega
    | succ j =>
      simp only [preLen, totalLen, List.take_succ_cons, List.map_cons, List.sum_cons,
        List.getD_cons_succ]
      have := ih j
      simp only [preLen, totalLen] at this
      omega

/-! ## Claim C3: atomic selection processing -/

/-- Claim C3: selection events are processed atomically.  If the selected
text trims to fewer than 3 characters, the selection lies outside the
reading region, or the node references do not resolve in order before the
walker breaks, the state is returned unchanged (no span, no task change, no
signal).  Otherwise — for a forward selection, which the DOM guarantees —
exactly one EvidenceSpan is appended and the EvidenceCapture task is marked
completed; completing it again when already complete is a no-op. -/
theorem c3_selection_atomic (nodes : List String) (sel : Sel) (st : CaptureState) :
    ((sel.contained = false ∨ (trimChars sel.text.data).length < 3 ∨
        ¬ (sel.startRef ≤ sel.endRef ∧ sel.endRef < nodes.length)) →
      onMouseUpCapture nodes sel st = st) ∧
    ((sel.contained = true ∧ 3 ≤ (trimChars sel.text.data).length ∧
        sel.startRef ≤ sel.endRef ∧ sel.endRef < nodes.length ∧
        globalOf nodes sel.startRef sel.startOff < globalOf nodes sel.endRef sel.endOff) →
      (onMouseUpCapture nodes sel st).evidence = st.evidence ++
          [{ id := "e" ++ toString (st.evidence.length + 1), text := sel.text,
             start := globalOf nodes sel.startRef sel.startOff,
             endPos := globalOf nodes sel.endRef sel.endOff }] ∧
        (onMouseUpCapture nodes sel st).tasks = markFirstHighlight st.tasks) ∧
    (∀ ts : List Task, markFirstHighlight (markFirstHighlight ts) = markFirstHighlight ts) := by
  refine ⟨?_, ?_, markFirstHighlight_idem⟩
  · intro h
    simp only [onMouseUpCapture]
    rcases h with h | h | h
    · rw [if_pos h]
    · by_cases hc : sel.contained = false
      · rw [if_pos hc]
      · rw [if_neg hc, if_pos (Or.inr h)]
    · by_cases hc : sel.contained = false
      · rw [if_pos hc]
      · rw [if_neg hc]
        by_cases ht : sel.text = "" ∨ (trimChars sel.text.data).length < 3
        · rw [if_pos ht]
        · rw [if_neg ht]
          have hguard : ¬ (0 ≤ (walkLoop sel nodes 0 0 (-1)).1 ∧
              (walkLoop sel nodes 0 0 (-1)).2 > (walkLoop sel nodes 0 0 (-1)).1) := by
            by_cases hlen : sel.endRef < nodes.length
            · have hsr : sel.endRef < sel.startRef := by omega
              have h1 := walkLoop_sg_neg sel nodes hsr hlen
              intro hg
              rw [h1] at hg
              omega
            · have h2 := walkLoop_no_end sel nodes 0 0 (-1) (by omega)
              intro hg
              rw [h2] at hg
              omega
          rw [if_neg hguard]
  · rintro ⟨hc, ht, hsr, hlen, hfwd⟩
    have hmain := walkLoop_main sel nodes hsr hlen
    have hcne : ¬ sel.contained = false := by simp [hc]
    have htne : ¬ (sel.text = "" ∨ (trimChars sel.text.data).length < 3) := by
      push_neg
      refine ⟨?_, by omega⟩
      intro h0
      rw [h0] at ht
      exact absurd ht (by decide)
    simp only [onMouseUpCapture, if_neg hcne, if_neg htne, hmain]
    constructor
    · simp [hfwd, Int.natCast_nonneg, Int.toNat_natCast]
    · simp [hfwd, Int.natCast_nonneg]

def helloDoc : String := "Hello world"

def helloSel : Sel :=
  { contained := true, text := "world", startRef := 0, startOff := 6,
    endRef := 0, endOff := 11 }

def emptyState : CaptureState := { evidence := [], tasks := [] }

theorem c3_selection_atomic_witness :
    (onMouseUpCapture [helloDoc] helloSel emptyState).evidence = emptyState.evidence ++
        [{ id := "e" ++ toString (emptyState.evidence.length + 1), text := helloSel.text,
           start := globalOf [helloDoc] helloSel.startRef helloSel.startOff,
           endPos := globalOf [helloDoc] helloSel.endRef helloSel.endOff }] ∧
      (onMouseUpCapture [helloDoc] helloSel emptyState).tasks =
        markFirstHighlight emptyState.tasks :=
  (c3_selection_atomic [helloDoc] helloSel emptyState).2.1 (by decide)

/-! ## Claim C4: the worked offset example -/

def catDogDoc : String := "The cat sat. The dog ran."

def catDogSel : Sel :=
  { contained := true, text := "The dog ran.", startRef := 0, startOff := 13,
    endRef := 0, endOff := 25 }

/-- Claim C4: with the document "The cat sat. The dog ran." rendered as a
single text node, selecting exactly "The dog ran." (both references naming
that node, so both offsets derive from the same running value 0) appends the
EvidenceSpan with start 13 and end 25, 0-indexed and end-exclusive. -/
theorem c4_offset_example :
    (onMouseUpCapture [catDogDoc] catDogSel emptyState).evidence =
      [{ id := "e1", text := catDogSel.text, start := 13, endPos := 25 }] := by
  decide

/-! ## Claim C5: the EvidenceSpan invariant -/

/-- Claim C5: under the DOM guarantees on a selection event (the end local
offset lies within the end node, the selected string equals the document
slice between the derived global offsets), capture preserves the span
invariant: every span in the evidence list has `0 ≤ start < end ≤ length`
of the document and `text` equal to the document slice at creation time; in
particular a span with `start ≥ end` never occurs. -/
theorem c5_span_invariant (nodes : List String) (sel : Sel) (st : CaptureState)
    (hprev : ∀ e ∈ st.evidence, spanInv nodes e)
    (hoff : sel.endOff ≤ (nodes.getD sel.endRef emptyStr).length)
    (htext : sel.text = docSlice nodes (globalOf nodes sel.startRef sel.startOff)
        (globalOf nodes sel.endRef sel.endOff)) :
    ∀ e ∈ (onMouseUpCapture nodes sel st).evidence, spanInv nodes e := by
  intro e he
  simp only [onMouseUpCapture] at he
  split_ifs at he with h1 h2 h3
  · exact hprev e he
  · exact hprev e he
  · have hlen : sel.endRef < nodes.length := by
      by_contra hl
      have h4 := walkLoop_no_end sel nodes 0 0 (-1) (by omega)
      rw [h4] at h3
      omega
    have hsr : sel.startRef ≤ sel.endRef := by
      by_contra hs
      have h5 := walkLoop_sg_neg sel nodes (by omega) hlen
      rw [h5] at h3
      omega
    have hmain := walkLoop_main sel nodes hsr hlen
    rw [hmain] at h3
    simp only [gt_iff_lt, Nat.cast_lt, Int.natCast_nonneg, true_and] at h3
    simp only [hmain, Int.toNat_natCast] at he
    rcases List.mem_append.mp he with hold | hnew
    · exact hprev e hold
    · have hspan := List.mem_singleton.mp hnew
      subst hspan
      refine ⟨Nat.zero_le _, by simpa using h3, ?_, htext⟩
      · show globalOf nodes sel.endRef sel.endOff ≤ totalLen nodes
        have hb := preLen_getD_le nodes sel.endRef
        simp only [globalOf]
        omega
  · exact hprev e he

def abcDoc : String := "abc def"

def abcSel : Sel :=
  { contained := true, text := "def", startRef := 0, startOff := 4,
    endRef := 0, endOff := 7 }

theorem c5_span_invariant_witness :
    abcSel.endOff ≤ ([abcDoc].getD abcSel.endRef emptyStr).length ∧
      abcSel.text = docSlice [abcDoc] (globalOf [abcDoc] abcSel.startRef abcSel.startOff)
        (globalOf [abcDoc] abcSel.endRef abcSel.endOff) ∧
      ∀ e ∈ (onMouseUpCapture [abcDoc] abcSel emptyState).evidence, spanInv [abcDoc] e :=
  ⟨by decide, by decide,
    c5_span_invariant [abcDoc] abcSel emptyState (by simp [emptyState]) (by decide) (by decide)⟩

/-! ## List counting helpers -/

lemma countP_congr_bool {α : Type} (p q : α → Bool) :
    ∀ l : List α, (∀ x ∈ l, p x = q x) → l.countP p = l.countP q := by
  intro l
  induction l with
  | nil => intro _; rfl
  | cons a l ih =>
    intro h
    simp only [List.countP_cons]
    rw [ih (fun x hx => h x (List.mem_cons_of_mem a hx)), h a (List.mem_cons_self a l)]

lemma countP_map_lam {α β : Type} (f : α → β) (p : β → Bool) :
    ∀ l : List α, (l.map f).countP p = l.countP (fun a => p (f a)) := by
  intro l
  induction l with
  | nil => rfl
  | cons a l ih => simp [List.countP_cons, ih]

lemma benMark_name (r : StudentRow) : (benMark r).name = r.name := by
  unfold benMark
  split <;> rfl

lemma demoClear_name (r : StudentRow) : (demoClear r).name = r.name := by
  unfold demoClear
  split <;> rfl

lemma benMark_of_not_ben (r : StudentRow) (h : ¬ r.name = benName) : benMark r = r := by
  simp [benMark, h]

/-- With both switches on and no truthy flag anywhere, reconciliation is the
seeding map. -/
lemma reconcile_seed_eq (rows : List StudentRow)
    (h : rows.any (fun r => flagTruthy r.flags) = false) :
    reconcile true true rows = rows.map benMark := by
  unfold reconcile seedDemo
  rw [h]
  rfl

/-- With mode off and a truthy demo marker present, reconciliation is the
clearing map. -/
lemma reconcile_clear_eq (rows : List StudentRow)
    (h : rows.any (fun r => demoTruthy r.flagsDemo) = true) :
    reconcile true false rows = rows.map demoClear := by
  unfold reconcile clearDemo
  rw [h]
  rfl

/-! ## Claim C6: demo-flag reconciliation -/

/-- Claim C6, counterexample: with capability and mode both on and no flags
anywhere, reconciliation over a learner set that lacks the fixed exemplar
name seeds no Demo flag at all, not exactly one: the seeding targets the
hard-coded name "Ben R.". -/
theorem c6_cex :
    (∀ r ∈ [danaRow], flagTruthy r.flags = false) ∧
      (reconcile true true [danaRow]).countP (fun r => flagTruthy r.flags) = 0 := by
  decide

/-- Claim C6 (amended): for every learner set containing exactly one learner
named "Ben R." (the deterministically chosen exemplar) and carrying no
truthy flag: switching capability and mode on seeds the Demo flag on exactly
that learner; toggling mode off then clears every Demo flag, leaving no
flags; switching back on re-seeds exactly one Demo flag. -/
theorem c6_demo_reconcile (rows : List StudentRow)
    (hben : rows.countP (fun r => decide (r.name = benName)) = 1)
    (hnoflag : ∀ r ∈ rows, flagTruthy r.flags = false) :
    (reconcile true true rows).countP (fun r => flagTruthy r.flags) = 1 ∧
    (∀ r ∈ reconcile true true rows, flagTruthy r.flags = true →
      r.name = benName ∧ r.flags = some skimLabel ∧ r.flagsDemo = some true) ∧
    (∀ r ∈ reconcile true false (reconcile true true rows),
      flagTruthy r.flags = false ∧ demoTruthy r.flagsDemo = false) ∧
    (reconcile true true (reconcile true false (reconcile true true rows))).countP
      (fun r => flagTruthy r.flags) = 1 := by
  have hskim : flagTruthy (some skimLabel) = true := by decide
  have hany : rows.any (fun r => flagTruthy r.flags) = false :=
    List.any_eq_false.mpr (fun x hx => by simp [hnoflag x hx])
  have hs1 : reconcile true true rows = rows.map benMark := reconcile_seed_eq rows hany
  have hmark : ∀ r : StudentRow, r ∈ rows →
      flagTruthy (benMark r).flags = decide (r.name = benName) := by
    intro r hr
    by_cases hn : r.name = benName
    · simp [benMark, hn, hskim]
    · simp [benMark_of_not_ben r hn, hn, hnoflag r hr]
  have hcount1 : (rows.map benMark).countP (fun r => flagTruthy r.flags) = 1 := by
    rw [countP_map_lam, countP_congr_bool _ _ rows hmark]
    exact hben
  -- a Ben row exists, so the seeded Demo flag exists and clearDemo fires
  have hex : ∃ r0 ∈ rows, decide (r0.name = benName) = true := by
    have : 0 < rows.countP (fun r => decide (r.name = benName)) := by omega
    simpa using List.countP_pos_iff.mp this
  obtain ⟨r0, hr0, hb0⟩ := hex
  have hb0n : r0.name = benName := by simpa using hb0
  have hanyd : (rows.map benMark).any (fun r => demoTruthy r.flagsDemo) = true :=
    List.any_eq_true.mpr ⟨benMark r0, List.mem_map_of_mem _ hr0,
      by simp [benMark, hb0n, demoTruthy]⟩
  have hs2 : reconcile true false (rows.map benMark) = (rows.map benMark).map demoClear :=
    reconcile_clear_eq _ hanyd
  have h3 : ∀ r ∈ (rows.map benMark).map demoClear,
      flagTruthy r.flags = false ∧ demoTruthy r.flagsDemo = false := by
    intro r hr
    obtain ⟨r1, hr1, rfl⟩ := List.mem_map.mp hr
    obtain ⟨r2, hr2, rfl⟩ := List.mem_map.mp hr1
    by_cases hn : r2.name = benName
    · simp [benMark, demoClear, hn, demoTruthy, flagTruthy]
    · rw [benMark_of_not_ben r2 hn]
      by_cases hd : demoTruthy r2.flagsDemo = true
      · simp only [demoClear, hd, if_true]
        exact ⟨rfl, rfl⟩
      · simp only [Bool.not_eq_true] at hd
        simp [demoClear, hd, hnoflag r2 hr2]
  -- re-seeding over the cleared list
  have hany2 : ((rows.map benMark).map demoClear).any (fun r => flagTruthy r.flags) = false :=
    List.any_eq_false.mpr (fun x hx => by simp [(h3 x hx).1])
  have hs3 : reconcile true true ((rows.map benMark).map demoClear) =
      ((rows.map benMark).map demoClear).map benMark :=
    reconcile_seed_eq _ hany2
  have hmark2 : ∀ r : StudentRow, r ∈ (rows.map benMark).map demoClear →
      flagTruthy (benMark r).flags = decide (r.name = benName) := by
    intro r hr
    by_cases hn : r.name = benName
    · simp [benMark, hn, hskim]
    · simp [benMark_of_not_ben r hn, hn, (h3 r hr).1]
  have hnames : ((rows.map benMark).map demoClear).countP
      (fun r => decide (r.name = benName)) = 1 := by
    rw [countP_map_lam, countP_map_lam]
    rw [countP_congr_bool _ (fun r : StudentRow => decide (r.name = benName)) rows
      (fun x _ => by rw [demoClear_name, benMark_name])]
    exact hben
  have hcount3 : (((rows.map benMark).map demoClear).map benMark).countP
      (fun r => flagTruthy r.flags) = 1 := by
    rw [countP_map_lam]
    rw [countP_congr_bool _ (fun r : StudentRow => decide (r.name = benName)) _ hmark2]
    exact hnames
  refine ⟨by rw [hs1]; exact hcount1, ?_, ?_, ?_⟩
  · rw [hs1]
    intro r hr hflag
    obtain ⟨r1, hr1, rfl⟩ := List.mem_map.mp hr
    by_cases hn : r1.name = benName
    · refine ⟨by rw [benMark_name]; exact hn, ?_, ?_⟩ <;> simp [benMark, hn]
    · rw [benMark_of_not_ben r1 hn] at hflag ⊢
      rw [hnoflag r1 hr1] at hflag
      exact absurd hflag (by simp)
  · rw [hs1, hs2]
    exact h3
  · rw [hs1, hs2, hs3]
    exact hcount3

theorem c6_demo_reconcile_witness :
    rowsApp.countP (fun r => decide (r.name = benName)) = 1 ∧
      (∀ r ∈ rowsApp, flagTruthy r.flags = false) ∧
      ((reconcile true true rowsApp).countP (fun r => flagTruthy r.flags) = 1 ∧
      (∀ r ∈ reconcile true true rowsApp, flagTruthy r.flags = true →
        r.name = benName ∧ r.flags = some skimLabel ∧ r.flagsDemo = some true) ∧
      (∀ r ∈ reconcile true false (reconcile true true rowsApp),
        flagTruthy r.flags = false ∧ demoTruthy r.flagsDemo = false) ∧
      (reconcile true true (reconcile true false (reconcile true true rowsApp))).countP
        (fun r => flagTruthy r.flags) = 1) := by
  have h1 : rowsApp.countP (fun r => decide (r.name = benName)) = 1 := by decide
  have h2 : ∀ r ∈ rowsApp, flagTruthy r.flags = false := by decide
  exact ⟨h1, h2, c6_demo_reconcile rowsApp h1 h2⟩

/-! ## Claim C7: persisted flags survive reconciliation -/

lemma reconcile_keeps_persisted (p m : Bool) (rows : List StudentRow) (r : StudentRow)
    (h : persistedFlag r) (hm : r ∈ rows) : r ∈ reconcile p m rows := by
  unfold reconcile
  split_ifs with hpm
  · unfold seedDemo
    have hany : rows.any (fun x => flagTruthy x.flags) = true :=
      List.any_eq_true.mpr ⟨r, hm, by simp [h.1]⟩
    simp only [hany, if_true]
    exact hm
  · unfold clearDemo
    split_ifs with hd
    · exact List.mem_map.mpr ⟨r, hm, by simp [demoClear, h.2]⟩
    · exact hm

/-- Claim C7: a learner record carrying a persisted (non-demo) flag is left
untouched by reconciliation across any sequence of capability/mode switch
states — the seeding rule is disabled while any truthy flag exists and the
clearing rule only touches demo-truthy rows — in particular across three
consecutive toggle cycles.  Persisted flags are created and removed only by
the explicit `seedRealFlag` / `clearRealFlags` calls. -/
theorem c7_persisted_fixed (rows : List StudentRow) (r : StudentRow)
    (L : List (Bool × Bool)) (h : persistedFlag r) (hm : r ∈ rows) :
    r ∈ reconcileAll L rows := by
  induction L generalizing rows with
  | nil => exact hm
  | cons pm L ih =>
    exact ih (reconcile pm.1 pm.2 rows) (reconcile_keeps_persisted pm.1 pm.2 rows r h hm)

def benRealRow : StudentRow :=
  { name := "Ben R.", time := "9m", tasks := "5/7", quality := Quality.Weak,
    flags := some realLabel, flagsDemo := some false, score := none, rubric := none,
    feedback := none }

def rowsSeeded : List StudentRow := seedRealFlag benName realLabel rowsApp

/-- Three consecutive capability/mode toggle cycles. -/
def toggles3 : List (Bool × Bool) :=
  [(true, true), (true, false), (true, true), (true, false), (true, true), (true, false)]

theorem c7_persisted_fixed_witness :
    persistedFlag benRealRow ∧ benRealRow ∈ rowsSeeded ∧
      benRealRow ∈ reconcileAll toggles3 rowsSeeded := by
  have h1 : persistedFlag benRealRow := by constructor <;> decide
  have h2 : benRealRow ∈ rowsSeeded := by decide
  exact ⟨h1, h2, c7_persisted_fixed rowsSeeded benRealRow toggles3 h1 h2⟩

end ProofOfReading
